import Mathlib

/-!
# Maya scene-lights tool: formal model and verification

A shallow embedding of the light-management panel sources
(`MayaSceneLights_applyChanges.py`, `MayaSceneLights_pysideWindow.py`,
`MayaSceneLights_mayaWindow.py`, `mayautils.py`).

Host (Maya/pymel) interaction is modelled as an explicit trace of calls
(`Call`), with the scalar attribute store threaded through the functions
that both read and write it.  Python floats are modelled as rationals,
Python ints as integers, Python exceptions as an `Option PyExc` outcome.
-/

/-- Python exception kinds relevant to this code base. -/
inductive PyExc where
  | keyError
  | typeError
  | valueError
  | runtimeError
  deriving DecidableEq, Repr

/-- One call into the host (pymel) API, as issued by the tool. -/
inductive Call where
  /-- `pmc.warning(msg)` -/
  | warning (msg : String)
  /-- `pmc.currentTime(query=True)` -/
  | queryCurrentTime
  /-- `pmc.getAttr(attr)` -/
  | getAttr (attr : String)
  /-- `pmc.cutKey(light, time=(t1, t2), attribute=a)` -/
  | cutKey (light : String) (t1 t2 : ℚ) (a : String)
  /-- `pmc.setKeyframe(light, time=t, attribute=a, value=v)` -/
  | setKeyframe (light : String) (t : ℚ) (a : String) (v : ℚ)
  /-- `pmc.setAttr(attr, v)` with a scalar value -/
  | setAttr (attr : String) (v : ℚ)
  /-- `pmc.setAttr(attr, v)` with a whole RGB list value -/
  | setAttrRgb (attr : String) (v : List ℚ)
  /-- `pmc.undoInfo(openChunk=True)` -/
  | undoInfoOpenChunk
  /-- `pmc.undoInfo(closeChunk=True)` -/
  | undoInfoCloseChunk
  /-- `pmc.undo()` -/
  | undo
  deriving DecidableEq, Repr

/-- Calls that mutate the host document (attribute writes, key edits, undo);
warnings and queries are not mutations. -/
def isMutation : Call → Bool
  | Call.setAttr _ _ => true
  | Call.setAttrRgb _ _ => true
  | Call.cutKey _ _ _ _ => true
  | Call.setKeyframe _ _ _ _ => true
  | Call.undo => true
  | _ => false

/-- `pmc.warning` calls, for counting user-facing warnings. -/
def isWarning : Call → Bool
  | Call.warning _ => true
  | _ => false

/-- The host state read by the engine: the current timeline frame and the
scalar attribute store (addressed by dotted `node.attribute` strings). -/
structure Host where
  currentTime : ℚ
  attrs : String → ℚ

/-- The warning emitted on an empty light selection
(`MayaSceneLights_applyChanges.py`, lines 19 and 73). -/
def selectWarning : String :=
  "Please select one or more lights in the Light Interface window\x27s list"

/-- Dotted attribute name `'%s.intensity' % light`. -/
def intensityAttr (light : String) : String := light ++ ".intensity"

/-- `calculate_value` closure of `change_intensity`
(`MayaSceneLights_applyChanges.py` lines 23-41): pick a lambda by the
`operator` key of a dict literal; a key outside `{0,1,2,3}` raises
`KeyError`, modelled as `none`. -/
def calculate_value (quantity : ℚ) (operator : ℤ) (current_value : ℚ) : Option ℚ :=
  let fixed := fun (_x : ℚ) => quantity
  let add := fun (x : ℚ) => x + quantity
  let mult := fun (x : ℚ) => x * quantity
  let percentage := fun (x : ℚ) => x + (x * quantity / 100)
  let operation : Option (ℚ → ℚ) :=
    if operator = 0 then some fixed
    else if operator = 1 then some add
    else if operator = 2 then some mult
    else if operator = 3 then some percentage
    else none
  operation.map (fun op => op current_value)

/-- The `for light in lights:` loop of `change_intensity` (lines 46-59),
threading the attribute store and emitting the call trace; a `KeyError`
from `calculate_value` aborts the loop after the `getAttr` of the light
that raised. -/
def intensityLoop (quantity : ℚ) (operator : ℤ) (keyframe : Bool)
    (currentFrame : ℚ) : List String → (String → ℚ) →
    (String → ℚ) × List Call × Option PyExc
  | [], attrs => (attrs, [], none)
  | light :: rest, attrs =>
    match calculate_value quantity operator (attrs (intensityAttr light)) with
    | none => (attrs, [Call.getAttr (intensityAttr light)], some PyExc.keyError)
    | some new_value =>
      let kfCalls := if keyframe then
          [Call.cutKey light currentFrame currentFrame "intensity",
           Call.setKeyframe light currentFrame "intensity" new_value]
        else []
      let attrs2 := fun a => if a = intensityAttr light then new_value else attrs a
      let res := intensityLoop quantity operator keyframe currentFrame rest attrs2
      (res.1,
       Call.getAttr (intensityAttr light) ::
         (kfCalls ++ Call.setAttr (intensityAttr light) new_value :: res.2.1),
       res.2.2)

/-- `change_intensity(quantity, operator, lights, keyframe)`
(`MayaSceneLights_applyChanges.py` lines 7-59).  Returns the updated host,
the trace of host calls and the exception outcome. -/
def change_intensity (quantity : ℚ) (operator : ℤ) (lights : List String)
    (keyframe : Bool) (host : Host) : Host × List Call × Option PyExc :=
  if lights.isEmpty then
    (host, [Call.warning selectWarning], none)
  else
    let currentFrame := host.currentTime
    let res := intensityLoop quantity operator keyframe currentFrame lights host.attrs
    ({ host with attrs := res.1 }, Call.queryCurrentTime :: res.2.1, res.2.2)

-- ===== helper lemmas =====

theorem calculate_value_total (q x : ℚ) (op : ℤ)
    (h : op ∈ ([0, 1, 2, 3] : List ℤ)) :
    ∃ v, calculate_value q op x = some v := by
  simp only [List.mem_cons, List.mem_singleton, List.not_mem_nil, or_false] at h
  rcases h with h | h | h | h <;> subst h <;>
    exact ⟨_, rfl⟩

theorem calculate_value_oob (q x : ℚ) (op : ℤ)
    (h : op ∉ ([0, 1, 2, 3] : List ℤ)) :
    calculate_value q op x = none := by
  simp only [List.mem_cons, List.mem_singleton, List.not_mem_nil, or_false,
    not_or] at h
  obtain ⟨h0, h1, h2, h3⟩ := h
  simp [calculate_value, h0, h1, h2, h3]

theorem calculate_value_fixed (q x : ℚ) : calculate_value q 0 x = some q := rfl

theorem calculate_value_add (q x : ℚ) : calculate_value q 1 x = some (x + q) := rfl

theorem calculate_value_mult (q x : ℚ) : calculate_value q 2 x = some (x * q) := rfl

theorem calculate_value_percentage (q x : ℚ) :
    calculate_value q 3 x = some (x + x * q / 100) := rfl

theorem String.append_cancel_right {a b s : String} (h : a ++ s = b ++ s) :
    a = b := by
  have hd : a.data ++ s.data = b.data ++ s.data := by
    have := congrArg String.data h
    simpa [String.data_append] using this
  have hab : a.data = b.data := List.append_cancel_right hd
  cases a; cases b; exact congrArg String.mk hab

theorem String.append_cancel_left {s a b : String} (h : s ++ a = s ++ b) :
    a = b := by
  have hd : s.data ++ a.data = s.data ++ b.data := by
    have := congrArg String.data h
    simpa [String.data_append] using this
  have hab : a.data = b.data := List.append_cancel_left hd
  cases a; cases b; exact congrArg String.mk hab

theorem intensityAttr_inj {a b : String} (h : intensityAttr a = intensityAttr b) :
    a = b := String.append_cancel_right h

/-- The loop leaves the intensity attribute of a light outside of `lights`
unchanged. -/
theorem intensityLoop_attrs_notmem (q : ℚ) (op : ℤ) (kf : Bool) (cf : ℚ) :
    ∀ (lights : List String) (attrs : String → ℚ) (l : String), l ∉ lights →
    (intensityLoop q op kf cf lights attrs).1 (intensityAttr l)
      = attrs (intensityAttr l) := by
  intro lights
  induction lights with
  | nil => intro attrs l _; rfl
  | cons l0 rest ih =>
    intro attrs l hl
    have hne : l ≠ l0 := fun h => hl (h ▸ List.mem_cons_self l0 rest)
    have hrest : l ∉ rest := fun h => hl (List.mem_cons_of_mem l0 h)
    cases hcv : calculate_value q op (attrs (intensityAttr l0)) with
    | none => simp [intensityLoop, hcv]
    | some v =>
      have hA : intensityAttr l ≠ intensityAttr l0 :=
        fun h => hne (intensityAttr_inj h)
      simp only [intensityLoop, hcv]
      rw [ih _ l hrest]
      simp [hA]

/-- The per-light work of `change_intensity`: for a valid operator, every
light in a duplicate-free list gets its new value computed from its current
intensity, an unconditional `setAttr` of that value appears in the trace,
and the final store holds that value. -/
theorem intensityLoop_spec (q : ℚ) (op : ℤ) (hop : op ∈ ([0, 1, 2, 3] : List ℤ))
    (kf : Bool) (cf : ℚ) :
    ∀ (lights : List String) (attrs : String → ℚ), lights.Nodup →
    ∀ l, l ∈ lights →
    ∃ v, calculate_value q op (attrs (intensityAttr l)) = some v ∧
      Call.setAttr (intensityAttr l) v ∈ (intensityLoop q op kf cf lights attrs).2.1 ∧
      (intensityLoop q op kf cf lights attrs).1 (intensityAttr l) = v := by
  intro lights
  induction lights with
  | nil => intro attrs _ l hl; exact absurd hl (List.not_mem_nil l)
  | cons l0 rest ih =>
    intro attrs hnd l hl
    obtain ⟨v0, hv0⟩ := calculate_value_total q (attrs (intensityAttr l0)) op hop
    have hl0rest : l0 ∉ rest := (List.nodup_cons.mp hnd).1
    have hndrest : rest.Nodup := (List.nodup_cons.mp hnd).2
    rcases List.mem_cons.mp hl with hEq | hMem
    · subst hEq
      refine ⟨v0, hv0, ?_, ?_⟩
      · simp [intensityLoop, hv0]
      · simp only [intensityLoop, hv0]
        rw [intensityLoop_attrs_notmem q op kf cf rest _ l hl0rest]
        simp
    · have hne : l ≠ l0 := fun h => hl0rest (h ▸ hMem)
      have hA : intensityAttr l ≠ intensityAttr l0 :=
        fun h => hne (intensityAttr_inj h)
      set attrs2 := fun a => if a = intensityAttr l0 then v0 else attrs a with hattrs2
      have h2 : attrs2 (intensityAttr l) = attrs (intensityAttr l) := by
        simp [hattrs2, hA]
      obtain ⟨v, hv, hmem, hfin⟩ := ih attrs2 hndrest l hMem
      rw [h2] at hv
      refine ⟨v, hv, ?_, ?_⟩
      · simp only [intensityLoop, hv0]
        simp only [List.mem_cons, List.mem_append]
        right; right
        exact Or.inr hmem
      · simp only [intensityLoop, hv0]
        exact hfin

-- ===== C1 =====

/-- C1: `change_intensity` computes the new value as `q` (operator 0),
`x+q` (operator 1), `x*q` (operator 2), `x + x*q/100` (operator 3); with
`q = 10` and `x = 5` these give 10, 15, 50 and 5.5; and for every valid
operator the computed value is unconditionally written to the light's
intensity attribute, for every light, regardless of the keyframe flag. -/
theorem claim1_intensity_operator_correctness :
    (∀ q x : ℚ, calculate_value q 0 x = some q ∧
      calculate_value q 1 x = some (x + q) ∧
      calculate_value q 2 x = some (x * q) ∧
      calculate_value q 3 x = some (x + x * q / 100)) ∧
    (calculate_value 10 0 5 = some 10 ∧ calculate_value 10 1 5 = some 15 ∧
      calculate_value 10 2 5 = some 50 ∧ calculate_value 10 3 5 = some (5.5 : ℚ)) ∧
    (∀ (q : ℚ) (op : ℤ), op ∈ ([0, 1, 2, 3] : List ℤ) →
      ∀ (lights : List String), lights.Nodup →
      ∀ (kf : Bool) (host : Host) (l : String), l ∈ lights →
      ∃ v, calculate_value q op (host.attrs (intensityAttr l)) = some v ∧
        Call.setAttr (intensityAttr l) v ∈ (change_intensity q op lights kf host).2.1 ∧
        (change_intensity q op lights kf host).1.attrs (intensityAttr l) = v) := by
  refine ⟨fun q x => ⟨rfl, rfl, rfl, rfl⟩,
    ⟨rfl, by norm_num [calculate_value], by norm_num [calculate_value],
      by norm_num [calculate_value]⟩, ?_⟩
  intro q op hop lights hnd kf host l hl
  obtain ⟨v, hv, hmem, hfin⟩ := intensityLoop_spec q op hop kf host.currentTime
    lights host.attrs hnd l hl
  have hne : ¬ lights.isEmpty := by
    cases lights with
    | nil => exact absurd hl (List.not_mem_nil l)
    | cons a t => simp
  refine ⟨v, hv, ?_, ?_⟩
  · simp only [change_intensity, if_neg hne]
    exact List.mem_cons_of_mem _ hmem
  · simp only [change_intensity, if_neg hne]
    exact hfin

def sampleHost : Host := ⟨0, fun _ => 5⟩

/-- Witness for C1: operator 1 (add) on a single light with intensity 5. -/
theorem claim1_witness :
    ((1 : ℤ) ∈ ([0, 1, 2, 3] : List ℤ)) ∧
    (["lightA"] : List String).Nodup ∧
    ("lightA" ∈ (["lightA"] : List String)) ∧
    ∃ v, calculate_value 10 1 (sampleHost.attrs (intensityAttr "lightA")) = some v ∧
      Call.setAttr (intensityAttr "lightA") v ∈
        (change_intensity 10 1 ["lightA"] true sampleHost).2.1 ∧
      (change_intensity 10 1 ["lightA"] true sampleHost).1.attrs
        (intensityAttr "lightA") = v :=
  ⟨by decide, by decide, by decide,
    claim1_intensity_operator_correctness.2.2 10 1 (by decide) ["lightA"]
      (by decide) true sampleHost "lightA" (by decide)⟩

-- ===== C10 =====

/-- C10: for an operator outside `{0,1,2,3}` and a non-empty light list,
`change_intensity` raises `KeyError` while computing the first light's new
value, the trace holds only the timeline query and the first `getAttr`
(no mutation of any kind), and the host is unchanged. -/
theorem claim10_invalid_operator_raises (q : ℚ) (op : ℤ)
    (hop : op ∉ ([0, 1, 2, 3] : List ℤ)) (l0 : String) (rest : List String)
    (kf : Bool) (host : Host) :
    (change_intensity q op (l0 :: rest) kf host).2.2 = some PyExc.keyError ∧
    (change_intensity q op (l0 :: rest) kf host).2.1
      = [Call.queryCurrentTime, Call.getAttr (intensityAttr l0)] ∧
    (change_intensity q op (l0 :: rest) kf host).1 = host ∧
    ∀ c ∈ (change_intensity q op (l0 :: rest) kf host).2.1, isMutation c = false := by
  have hcv := calculate_value_oob q (host.attrs (intensityAttr l0)) op hop
  refine ⟨?_, ?_, ?_, ?_⟩ <;>
    simp [change_intensity, intensityLoop, hcv, isMutation]

/-- Witness for C10: operator 7 on a one-light list. -/
theorem claim10_witness :
    ((7 : ℤ) ∉ ([0, 1, 2, 3] : List ℤ)) ∧
    (change_intensity 10 7 ["lightA"] true sampleHost).2.2 = some PyExc.keyError :=
  ⟨by decide,
    (claim10_invalid_operator_raises 10 7 (by decide) "lightA" [] true sampleHost).1⟩

-- ===== change_color =====

/-- `rgb_array = ('R', 'G', 'B')` (`MayaSceneLights_applyChanges.py` line 84). -/
def rgb_array : List String := ["R", "G", "B"]

/-- The `attr` dict of `change_color` (lines 77-80): host attribute name and
keyframe channel-name prefix selected by `color_or_shadow`; any other key
raises `KeyError`, modelled as `none`. -/
def attrTable (color_or_shadow : ℤ) : Option (String × String) :=
  if color_or_shadow = 1 then some ("color", "color")
  else if color_or_shadow = 2 then some ("shadowColor", "shadColor")
  else none

/-- The `for color in rgb_array:` loop of `set_rgb_keyframes` (lines 93-102)
with its explicit counter `i`; `color_value[i]` is modelled with `getD`
(all call sites pass a 3-float list, so the Python `IndexError` path is
never reached). -/
def set_rgb_keyframes_loop (light pfx : String) (currentFrame : ℚ)
    (color_value : List ℚ) : ℕ → List String → List Call
  | _, [] => []
  | i, color :: rest =>
    Call.cutKey light currentFrame currentFrame (pfx ++ color) ::
    Call.setKeyframe light currentFrame (pfx ++ color) (color_value.getD i 0) ::
    set_rgb_keyframes_loop light pfx currentFrame color_value (i + 1) rest

/-- `set_rgb_keyframes(prefix)` closure of `change_color` (lines 87-102).
The Python closure reads the enclosing loop variable `light` when it runs;
it is only ever invoked from inside the `for light in lights:` iteration,
so the binding it sees is that iteration's light, passed here explicitly. -/
def set_rgb_keyframes (light : String) (currentFrame : ℚ)
    (color_value : List ℚ) (pfx : String) : List Call :=
  set_rgb_keyframes_loop light pfx currentFrame color_value 0 rgb_array

/-- One iteration of the `for light in lights:` loop of `change_color`
(lines 104-110): optional RGB keyframing, then the unconditional whole
color attribute write `pmc.setAttr('%s.%s' % (light, attr[0]), color_value)`. -/
def colorIter (keyframe : Bool) (currentFrame : ℚ) (color_value : List ℚ)
    (attrName pfx : String) (light : String) : List Call :=
  (if keyframe then set_rgb_keyframes light currentFrame color_value pfx else [])
  ++ [Call.setAttrRgb (light ++ "." ++ attrName) color_value]

/-- `change_color(color_value, lights, keyframe, color_or_shadow)`
(`MayaSceneLights_applyChanges.py` lines 61-110). -/
def change_color (color_value : List ℚ) (lights : List String)
    (keyframe : Bool) (color_or_shadow : ℤ) (host : Host) :
    List Call × Option PyExc :=
  if lights.isEmpty then
    ([Call.warning selectWarning], none)
  else
    match attrTable color_or_shadow with
    | none => ([], some PyExc.keyError)
    | some attr =>
      let currentFrame := host.currentTime
      (Call.queryCurrentTime ::
        lights.flatMap (colorIter keyframe currentFrame color_value attr.1 attr.2),
       none)

-- ===== C2 =====

/-- C2: with an empty lights collection, `change_intensity` and
`change_color` each emit exactly the one warning and perform nothing else:
no mutation, no key edit, no timeline query, no exception, for all other
argument values. -/
theorem claim2_empty_selection_noop (q : ℚ) (op : ℤ) (kf : Bool) (host : Host)
    (cv : List ℚ) (cos : ℤ) :
    change_intensity q op [] kf host = (host, [Call.warning selectWarning], none) ∧
    change_color cv [] kf cos host = ([Call.warning selectWarning], none) ∧
    (change_intensity q op [] kf host).2.1.countP isWarning = 1 ∧
    (change_color cv [] kf cos host).1.countP isWarning = 1 ∧
    (change_intensity q op [] kf host).2.1.filter isMutation = [] ∧
    (change_color cv [] kf cos host).1.filter isMutation = [] ∧
    Call.queryCurrentTime ∉ (change_intensity q op [] kf host).2.1 ∧
    Call.queryCurrentTime ∉ (change_color cv [] kf cos host).1 := by
  refine ⟨rfl, rfl, rfl, rfl, rfl, rfl, ?_, ?_⟩ <;>
    simp [change_intensity, change_color, isWarning]

-- ===== helper lemmas about colorIter / change_color =====

theorem change_color_trace (cv : List ℚ) (lights : List String) (kf : Bool)
    (cos : ℤ) (an pfx : String) (host : Host)
    (hattr : attrTable cos = some (an, pfx)) (hne : lights ≠ []) :
    change_color cv lights kf cos host =
      (Call.queryCurrentTime ::
        lights.flatMap (colorIter kf host.currentTime cv an pfx), none) := by
  simp [change_color, hattr, hne]

/-- Enumeration of every call an iteration of `change_color`'s light loop
can emit. -/
theorem colorIter_mem (kf : Bool) (cf : ℚ) (cv : List ℚ) (an pfx l : String)
    (c : Call) (hc : c ∈ colorIter kf cf cv an pfx l) :
    c = Call.setAttrRgb (l ++ "." ++ an) cv ∨
    (∃ ch ∈ rgb_array, c = Call.cutKey l cf cf (pfx ++ ch)) ∨
    (∃ ch ∈ rgb_array, ∃ i : ℕ,
      c = Call.setKeyframe l cf (pfx ++ ch) (cv.getD i 0)) := by
  cases kf with
  | false =>
    simp only [colorIter, if_neg (by simp : ¬ (false = true)), List.nil_append,
      List.mem_singleton] at hc
    exact Or.inl hc
  | true =>
    have hc2 : c ∈ [Call.cutKey l cf cf (pfx ++ "R"),
        Call.setKeyframe l cf (pfx ++ "R") (cv.getD 0 0),
        Call.cutKey l cf cf (pfx ++ "G"),
        Call.setKeyframe l cf (pfx ++ "G") (cv.getD 1 0),
        Call.cutKey l cf cf (pfx ++ "B"),
        Call.setKeyframe l cf (pfx ++ "B") (cv.getD 2 0),
        Call.setAttrRgb (l ++ "." ++ an) cv] := by
      simpa [colorIter, set_rgb_keyframes, rgb_array,
        set_rgb_keyframes_loop] using hc
    simp only [List.mem_cons, List.not_mem_nil, or_false] at hc2
    rcases hc2 with h | h | h | h | h | h | h
    · exact Or.inr (Or.inl ⟨"R", by simp [rgb_array], h⟩)
    · exact Or.inr (Or.inr ⟨"R", by simp [rgb_array], 0, h⟩)
    · exact Or.inr (Or.inl ⟨"G", by simp [rgb_array], h⟩)
    · exact Or.inr (Or.inr ⟨"G", by simp [rgb_array], 1, h⟩)
    · exact Or.inr (Or.inl ⟨"B", by simp [rgb_array], h⟩)
    · exact Or.inr (Or.inr ⟨"B", by simp [rgb_array], 2, h⟩)
    · exact Or.inl h

theorem colorIter_setAttrRgb_mem (kf : Bool) (cf : ℚ) (cv : List ℚ)
    (an pfx l : String) :
    Call.setAttrRgb (l ++ "." ++ an) cv ∈ colorIter kf cf cv an pfx l := by
  simp [colorIter]

-- ===== C3 =====

/-- C3: `change_color` with `color_or_shadow = 1` writes the whole 3-channel
`color_value` to attribute `light ++ ".color"` for every light regardless of
the keyframe flag, keyframe channel names all use prefix `"color"`; with
`color_or_shadow = 2` the same holds for `"shadowColor"` / `"shadColor"`;
no scalar attribute and no other attribute family is touched. -/
theorem claim3_color_channel_mapping (cv : List ℚ) (lights : List String)
    (kf : Bool) (host : Host) (hne : lights ≠ []) :
    (attrTable 1 = some ("color", "color") ∧
      attrTable 2 = some ("shadowColor", "shadColor")) ∧
    (∀ l ∈ lights,
      Call.setAttrRgb (l ++ "." ++ "color") cv ∈ (change_color cv lights kf 1 host).1 ∧
      Call.setAttrRgb (l ++ "." ++ "shadowColor") cv ∈
        (change_color cv lights kf 2 host).1) ∧
    (∀ a v, Call.setAttrRgb a v ∈ (change_color cv lights kf 1 host).1 →
      v = cv ∧ ∃ l ∈ lights, a = l ++ "." ++ "color") ∧
    (∀ a v, Call.setAttrRgb a v ∈ (change_color cv lights kf 2 host).1 →
      v = cv ∧ ∃ l ∈ lights, a = l ++ "." ++ "shadowColor") ∧
    (∀ l t1 t2 a, Call.cutKey l t1 t2 a ∈ (change_color cv lights kf 1 host).1 →
      ∃ ch ∈ rgb_array, a = "color" ++ ch) ∧
    (∀ l t a v, Call.setKeyframe l t a v ∈ (change_color cv lights kf 1 host).1 →
      ∃ ch ∈ rgb_array, a = "color" ++ ch) ∧
    (∀ l t1 t2 a, Call.cutKey l t1 t2 a ∈ (change_color cv lights kf 2 host).1 →
      ∃ ch ∈ rgb_array, a = "shadColor" ++ ch) ∧
    (∀ l t a v, Call.setKeyframe l t a v ∈ (change_color cv lights kf 2 host).1 →
      ∃ ch ∈ rgb_array, a = "shadColor" ++ ch) ∧
    (∀ a v, Call.setAttr a v ∉ (change_color cv lights kf 1 host).1) ∧
    (∀ a v, Call.setAttr a v ∉ (change_color cv lights kf 2 host).1) := by
  have h1 := change_color_trace cv lights kf 1 "color" "color" host rfl hne
  have h2 := change_color_trace cv lights kf 2 "shadowColor" "shadColor" host rfl hne
  rw [h1, h2]
  refine ⟨⟨rfl, rfl⟩, ?_, ?_, ?_, ?_, ?_, ?_, ?_, ?_, ?_⟩
  · intro l hl
    constructor <;>
      exact List.mem_cons_of_mem _
        (List.mem_flatMap.mpr ⟨l, hl, colorIter_setAttrRgb_mem ..⟩)
  · intro a v hmem
    rcases List.mem_cons.mp hmem with h | h
    · exact absurd h (by simp)
    · obtain ⟨l, hl, hcall⟩ := List.mem_flatMap.mp h
      rcases colorIter_mem _ _ _ _ _ _ _ hcall with h | ⟨ch, _, h⟩ | ⟨ch, _, i, h⟩
      · obtain ⟨ha, hv⟩ := Call.setAttrRgb.inj h
        exact ⟨hv, l, hl, ha⟩
      · exact absurd h (by simp)
      · exact absurd h (by simp)
  · intro a v hmem
    rcases List.mem_cons.mp hmem with h | h
    · exact absurd h (by simp)
    · obtain ⟨l, hl, hcall⟩ := List.mem_flatMap.mp h
      rcases colorIter_mem _ _ _ _ _ _ _ hcall with h | ⟨ch, _, h⟩ | ⟨ch, _, i, h⟩
      · obtain ⟨ha, hv⟩ := Call.setAttrRgb.inj h
        exact ⟨hv, l, hl, ha⟩
      · exact absurd h (by simp)
      · exact absurd h (by simp)
  · intro l t1 t2 a hmem
    rcases List.mem_cons.mp hmem with h | h
    · exact absurd h (by simp)
    · obtain ⟨l2, _, hcall⟩ := List.mem_flatMap.mp h
      rcases colorIter_mem _ _ _ _ _ _ _ hcall with h | ⟨ch, hch, h⟩ | ⟨ch, _, i, h⟩
      · exact absurd h (by simp)
      · exact ⟨ch, hch, (Call.cutKey.inj h).2.2.2⟩
      · exact absurd h (by simp)
  · intro l t a v hmem
    rcases List.mem_cons.mp hmem with h | h
    · exact absurd h (by simp)
    · obtain ⟨l2, _, hcall⟩ := List.mem_flatMap.mp h
      rcases colorIter_mem _ _ _ _ _ _ _ hcall with h | ⟨ch, _, h⟩ | ⟨ch, hch, i, h⟩
      · exact absurd h (by simp)
      · exact absurd h (by simp)
      · exact ⟨ch, hch, (Call.setKeyframe.inj h).2.2.1⟩
  · intro l t1 t2 a hmem
    rcases List.mem_cons.mp hmem with h | h
    · exact absurd h (by simp)
    · obtain ⟨l2, _, hcall⟩ := List.mem_flatMap.mp h
      rcases colorIter_mem _ _ _ _ _ _ _ hcall with h | ⟨ch, hch, h⟩ | ⟨ch, _, i, h⟩
      · exact absurd h (by simp)
      · exact ⟨ch, hch, (Call.cutKey.inj h).2.2.2⟩
      · exact absurd h (by simp)
  · intro l t a v hmem
    rcases List.mem_cons.mp hmem with h | h
    · exact absurd h (by simp)
    · obtain ⟨l2, _, hcall⟩ := List.mem_flatMap.mp h
      rcases colorIter_mem _ _ _ _ _ _ _ hcall with h | ⟨ch, _, h⟩ | ⟨ch, hch, i, h⟩
      · exact absurd h (by simp)
      · exact absurd h (by simp)
      · exact ⟨ch, hch, (Call.setKeyframe.inj h).2.2.1⟩
  · intro a v hmem
    rcases List.mem_cons.mp hmem with h | h
    · exact absurd h (by simp)
    · obtain ⟨l2, _, hcall⟩ := List.mem_flatMap.mp h
      rcases colorIter_mem _ _ _ _ _ _ _ hcall with h | ⟨ch, _, h⟩ | ⟨ch, _, i, h⟩ <;>
        exact absurd h (by simp)
  · intro a v hmem
    rcases List.mem_cons.mp hmem with h | h
    · exact absurd h (by simp)
    · obtain ⟨l2, _, hcall⟩ := List.mem_flatMap.mp h
      rcases colorIter_mem _ _ _ _ _ _ _ hcall with h | ⟨ch, _, h⟩ | ⟨ch, _, i, h⟩ <;>
        exact absurd h (by simp)

/-- Witness for C3: two lights, keyframe on, light-color target. -/
theorem claim3_witness :
    ((["lightA", "lightB"] : List String) ≠ []) ∧
    ∀ l ∈ (["lightA", "lightB"] : List String),
      Call.setAttrRgb (l ++ "." ++ "color") [1, 0, 0] ∈
        (change_color [1, 0, 0] ["lightA", "lightB"] true 1 sampleHost).1 ∧
      Call.setAttrRgb (l ++ "." ++ "shadowColor") [1, 0, 0] ∈
        (change_color [1, 0, 0] ["lightA", "lightB"] true 2 sampleHost).1 :=
  ⟨by decide,
    (claim3_color_channel_mapping [1, 0, 0] ["lightA", "lightB"] true sampleHost
      (by decide)).2.1⟩

-- ===== C6 =====

/-- The light a key-editing call (`cutKey` / `setKeyframe`) acts on. -/
def keyCallLight : Call → Option String
  | Call.cutKey l _ _ _ => some l
  | Call.setKeyframe l _ _ _ => some l
  | _ => none

/-- Every key-editing call emitted by the iteration for `light = l` acts on
`l` itself: the closure reads the loop variable at call time, and it only
runs during that light's iteration. -/
theorem colorIter_keyCallLight (kf : Bool) (cf : ℚ) (cv : List ℚ)
    (an pfx l : String) (c : Call) (hc : c ∈ colorIter kf cf cv an pfx l)
    (l2 : String) (hk : keyCallLight c = some l2) : l2 = l := by
  rcases colorIter_mem kf cf cv an pfx l c hc with h | ⟨ch, _, h⟩ | ⟨ch, _, i, h⟩
  · subst h; simp [keyCallLight] at hk
  · subst h
    have hl : l = l2 := by simpa [keyCallLight] using hk
    exact hl.symm
  · subst h
    have hl : l = l2 := by simpa [keyCallLight] using hk
    exact hl.symm

/-- C6 counterexample: there is no input at all (in particular none with at
least two lights) on which a key-editing call emitted during one light's
iteration acts on a different light. -/
theorem claim6_counterexample : ¬ ∃ (cv : List ℚ) (lights : List String)
    (host : Host) (cos : ℤ) (an pfx l : String) (c : Call) (l2 : String),
    attrTable cos = some (an, pfx) ∧ 2 ≤ lights.length ∧ l ∈ lights ∧
    c ∈ colorIter true host.currentTime cv an pfx l ∧
    keyCallLight c = some l2 ∧ l2 ≠ l := by
  rintro ⟨cv, lights, host, cos, an, pfx, l, c, l2, -, -, -, hc, hk, hne⟩
  exact hne (colorIter_keyCallLight true host.currentTime cv an pfx l c hc l2 hk)

/-- C6 (amended): the per-channel keyframe-setting closure references the
outer loop variable `light`, but it executes inside that light's iteration,
so the captured binding always equals the per-iteration light: the
`change_color` trace decomposes per iteration, and every key-editing call
of an iteration acts on that iteration's light. -/
theorem claim6_keyframe_loop_variable (cv : List ℚ) (lights : List String)
    (kf : Bool) (cos : ℤ) (an pfx : String) (host : Host)
    (hattr : attrTable cos = some (an, pfx)) (hne : lights ≠ []) :
    (change_color cv lights kf cos host).1 =
      Call.queryCurrentTime ::
        lights.flatMap (colorIter kf host.currentTime cv an pfx) ∧
    (∀ l ∈ lights, ∀ c ∈ colorIter kf host.currentTime cv an pfx l,
      ∀ l2, keyCallLight c = some l2 → l2 = l) := by
  refine ⟨by rw [change_color_trace cv lights kf cos an pfx host hattr hne], ?_⟩
  intro l _ c hc l2 hk
  exact colorIter_keyCallLight _ _ _ _ _ _ _ hc _ hk

/-- Witness for C6: two lights, light-color target. -/
theorem claim6_witness :
    attrTable 1 = some ("color", "color") ∧
    ((["lightA", "lightB"] : List String) ≠ []) ∧
    (change_color [1, 0, 0] ["lightA", "lightB"] true 1 sampleHost).1 =
      Call.queryCurrentTime ::
        (["lightA", "lightB"] : List String).flatMap
          (colorIter true sampleHost.currentTime [1, 0, 0] "color" "color") :=
  ⟨rfl, by decide,
    (claim6_keyframe_loop_variable [1, 0, 0] ["lightA", "lightB"] true 1
      "color" "color" sampleHost rfl (by decide)).1⟩

-- ===== C7: undo scopes (mayautils.py) =====

/-- `undo_chunk.__enter__` (mayautils.py lines 10-11): open an undo chunk.
Each `__exit__` below returns the host calls it makes and whether it
suppresses the exception (a truthy Python return value). -/
def undo_chunk_enter : List Call := [Call.undoInfoOpenChunk]

/-- `undo_chunk.__exit__(*_)` (mayautils.py lines 13-14): close the chunk,
return `None` (never suppresses). -/
def undo_chunk_exit (_excVal : Option PyExc) : List Call × Bool :=
  ([Call.undoInfoCloseChunk], false)

/-- `undo_on_error.__enter__` (mayautils.py lines 19-20). -/
def undo_on_error_enter : List Call := [Call.undoInfoOpenChunk]

/-- `undo_on_error.__exit__(exc_type, exc_val, exc_tb)` (lines 22-25):
close the chunk, then `pmc.undo()` if `exc_val is not None`; returns `None`
(never suppresses). -/
def undo_on_error_exit (excVal : Option PyExc) : List Call × Bool :=
  (Call.undoInfoCloseChunk :: (if excVal.isSome then [Call.undo] else []), false)

/-- Python `with` semantics over the call-trace model: run `__enter__`,
the body (its trace and exception outcome), then `__exit__` with the
body's exception; a truthy `__exit__` return swallows the exception. -/
def withStmt (enter : List Call) (exitFn : Option PyExc → List Call × Bool)
    (body : List Call × Option PyExc) : List Call × Option PyExc :=
  (enter ++ body.1 ++ (exitFn body.2).1,
   if (exitFn body.2).2 then none else body.2)

/-- C7: `undo_chunk` opens on entry and closes on every exit path, never
alters the exception and never issues an undo; `undo_on_error` additionally
issues exactly one undo after the close exactly when the body raised, and
the exception still propagates. -/
theorem claim7_undo_scopes (btr : List Call) (e : Option PyExc) (err : PyExc) :
    withStmt undo_chunk_enter undo_chunk_exit (btr, e)
      = (Call.undoInfoOpenChunk :: (btr ++ [Call.undoInfoCloseChunk]), e) ∧
    Call.undo ∉ (undo_chunk_exit e).1 ∧
    withStmt undo_on_error_enter undo_on_error_exit (btr, some err)
      = (Call.undoInfoOpenChunk :: (btr ++ [Call.undoInfoCloseChunk, Call.undo]),
         some err) ∧
    withStmt undo_on_error_enter undo_on_error_exit (btr, none)
      = (Call.undoInfoOpenChunk :: (btr ++ [Call.undoInfoCloseChunk]), none) ∧
    ((withStmt undo_on_error_enter undo_on_error_exit (btr, e)).1.count Call.undo
      = btr.count Call.undo + (if e.isSome then 1 else 0)) := by
  refine ⟨?_, ?_, ?_, ?_, ?_⟩
  · simp [withStmt, undo_chunk_enter, undo_chunk_exit]
  · simp [undo_chunk_exit]
  · simp [withStmt, undo_on_error_enter, undo_on_error_exit]
  · simp [withStmt, undo_on_error_enter, undo_on_error_exit]
  · cases e <;>
      simp [withStmt, undo_on_error_enter, undo_on_error_exit, List.count_append,
        List.count_cons]

-- ===== C4: key-store interpretation of the traces =====

/-- Animation keys per `(light, attribute channel)`: the `(time, value)`
samples on that channel.  The host semantics follows the spec's
description: `cutKey` deletes every key in its time range on its channel,
`setKeyframe` records one key at its time, and no other call edits keys. -/
def KeyStore := String → String → List (ℚ × ℚ)

def applyCall (ks : KeyStore) : Call → KeyStore
  | Call.cutKey l t1 t2 a => fun lq aq =>
      if lq = l ∧ aq = a then
        (ks lq aq).filter (fun p => decide (¬ (t1 ≤ p.1 ∧ p.1 ≤ t2)))
      else ks lq aq
  | Call.setKeyframe l t a v => fun lq aq =>
      if lq = l ∧ aq = a then ks lq aq ++ [(t, v)] else ks lq aq
  | _ => ks

def runCalls (ks : KeyStore) (tr : List Call) : KeyStore := tr.foldl applyCall ks

/-- The keys sitting at time `t` on channel `(l, a)`. -/
def keysAt (ks : KeyStore) (l a : String) (t : ℚ) : List (ℚ × ℚ) :=
  (ks l a).filter (fun p => decide (p.1 = t))

/-- Does a call edit the keys of channel `(lq, aq)`? -/
def touches (c : Call) (lq aq : String) : Prop :=
  match c with
  | Call.cutKey l _ _ a => lq = l ∧ aq = a
  | Call.setKeyframe l _ a _ => lq = l ∧ aq = a
  | _ => False

theorem applyCall_not_touches (ks : KeyStore) (c : Call) (lq aq : String)
    (h : ¬ touches c lq aq) : applyCall ks c lq aq = ks lq aq := by
  cases c <;> try rfl
  case cutKey l t1 t2 a =>
    have h2 : ¬ (lq = l ∧ aq = a) := h
    simp only [applyCall]
    rw [if_neg h2]
  case setKeyframe l t a v =>
    have h2 : ¬ (lq = l ∧ aq = a) := h
    simp only [applyCall]
    rw [if_neg h2]

theorem runCalls_append (ks : KeyStore) (tr1 tr2 : List Call) :
    runCalls ks (tr1 ++ tr2) = runCalls (runCalls ks tr1) tr2 := by
  simp [runCalls]

theorem runCalls_untouched (l a : String) :
    ∀ (tr : List Call) (ks : KeyStore), (∀ c ∈ tr, ¬ touches c l a) →
    runCalls ks tr l a = ks l a := by
  intro tr
  induction tr with
  | nil => intro ks _; rfl
  | cons c tr ih =>
    intro ks h
    have hc : ¬ touches c l a := h c (List.mem_cons_self c tr)
    have hstep : runCalls ks (c :: tr) = runCalls (applyCall ks c) tr := rfl
    rw [hstep, ih _ (fun d hd => h d (List.mem_cons_of_mem _ hd)),
      applyCall_not_touches _ _ _ _ hc]

/-- A cut over `[cf, cf]` leaves no key at `cf`. -/
theorem cut_then_keysAt (cf : ℚ) (xs : List (ℚ × ℚ)) :
    (xs.filter (fun p => decide (¬ (cf ≤ p.1 ∧ p.1 ≤ cf)))).filter
      (fun p => decide (p.1 = cf)) = [] := by
  rw [List.filter_filter]
  apply List.filter_eq_nil_iff.mpr
  intro p _
  by_cases hp : p.1 = cf
  · simp [hp]
  · simp [hp]

theorem infix_append_left_lift {α : Type} {l1 l2 : List α} (h : l1 <:+: l2)
    (l3 : List α) : l1 <:+: l2 ++ l3 := by
  obtain ⟨u, w, he⟩ := h
  exact ⟨u, w ++ l3, by rw [← he]; simp [List.append_assoc]⟩

theorem infix_append_right_lift {α : Type} {l1 l2 : List α} (h : l1 <:+: l2)
    (l3 : List α) : l1 <:+: l3 ++ l2 := by
  obtain ⟨u, w, he⟩ := h
  exact ⟨l3 ++ u, w, by rw [← he]; simp [List.append_assoc]⟩

/-- Every key-editing call of the intensity loop acts on a light of the
list and on the `"intensity"` channel. -/
theorem intensityLoop_touches (q : ℚ) (op : ℤ) (kf : Bool) (cf : ℚ) :
    ∀ (lights : List String) (attrs : String → ℚ) (c : Call),
    c ∈ (intensityLoop q op kf cf lights attrs).2.1 →
    ∀ lq aq, touches c lq aq → lq ∈ lights ∧ aq = "intensity" := by
  intro lights
  induction lights with
  | nil => intro attrs c hc; exact absurd hc (List.not_mem_nil c)
  | cons l0 rest ih =>
    intro attrs c hc lq aq ht
    cases hcv : calculate_value q op (attrs (intensityAttr l0)) with
    | none =>
      simp only [intensityLoop, hcv, List.mem_singleton] at hc
      subst hc
      exact absurd ht (by simp [touches])
    | some v =>
      simp only [intensityLoop, hcv] at hc
      rcases List.mem_cons.mp hc with h | h
      · subst h; exact absurd ht (by simp [touches])
      · rcases List.mem_append.mp h with h | h
        · cases kf with
          | false => simp at h
          | true =>
            have h2 : c ∈ [Call.cutKey l0 cf cf "intensity",
                Call.setKeyframe l0 cf "intensity" v] := by simpa using h
            rcases List.mem_cons.mp h2 with h3 | h3
            · subst h3
              obtain ⟨h1, hA⟩ := ht
              exact ⟨List.mem_cons.mpr (Or.inl h1), hA⟩
            · rw [List.mem_singleton] at h3
              subst h3
              obtain ⟨h1, hA⟩ := ht
              exact ⟨List.mem_cons.mpr (Or.inl h1), hA⟩
        · rcases List.mem_cons.mp h with h | h
          · subst h; exact absurd ht (by simp [touches])
          · obtain ⟨h1, h2⟩ := ih _ c h lq aq ht
            exact ⟨List.mem_cons_of_mem _ h1, h2⟩

/-- The intensity loop with `keyframe = True`: for every light of the list
the trace holds a contiguous cut-then-set pair on its intensity channel at
the current frame, and after interpreting the whole trace from any initial
key store the channel carries exactly one key at that frame — the one the
`setKeyframe` placed. -/
theorem intensityLoop_keys (q : ℚ) (op : ℤ)
    (hop : op ∈ ([0, 1, 2, 3] : List ℤ)) (cf : ℚ) :
    ∀ (lights : List String) (attrs : String → ℚ) (l : String), l ∈ lights →
    ∀ ks : KeyStore,
    ∃ v, [Call.cutKey l cf cf "intensity", Call.setKeyframe l cf "intensity" v]
        <:+: (intensityLoop q op true cf lights attrs).2.1 ∧
      keysAt (runCalls ks (intensityLoop q op true cf lights attrs).2.1)
        l "intensity" cf = [(cf, v)] := by
  intro lights
  induction lights with
  | nil => intro attrs l hl; exact absurd hl (List.not_mem_nil l)
  | cons l0 rest ih =>
    intro attrs l hl ks
    obtain ⟨v0, hv0⟩ := calculate_value_total q (attrs (intensityAttr l0)) op hop
    have htr : (intensityLoop q op true cf (l0 :: rest) attrs).2.1
        = [Call.getAttr (intensityAttr l0),
           Call.cutKey l0 cf cf "intensity",
           Call.setKeyframe l0 cf "intensity" v0,
           Call.setAttr (intensityAttr l0) v0] ++
          (intensityLoop q op true cf rest
            (fun a => if a = intensityAttr l0 then v0 else attrs a)).2.1 := by
      simp [intensityLoop, hv0]
    by_cases hmemrest : l ∈ rest
    · obtain ⟨v, hinf, hkeys⟩ := ih
        (fun a => if a = intensityAttr l0 then v0 else attrs a) l hmemrest
        (runCalls ks [Call.getAttr (intensityAttr l0),
           Call.cutKey l0 cf cf "intensity",
           Call.setKeyframe l0 cf "intensity" v0,
           Call.setAttr (intensityAttr l0) v0])
      refine ⟨v, ?_, ?_⟩
      · rw [htr]
        exact infix_append_right_lift hinf _
      · rw [htr, runCalls_append]
        exact hkeys
    · have hll0 : l = l0 := by
        rcases List.mem_cons.mp hl with h | h
        · exact h
        · exact absurd h hmemrest
      subst hll0
      refine ⟨v0, ?_, ?_⟩
      · rw [htr]
        exact ⟨[Call.getAttr (intensityAttr l)],
          Call.setAttr (intensityAttr l) v0 ::
            (intensityLoop q op true cf rest
              (fun a => if a = intensityAttr l then v0 else attrs a)).2.1,
          by simp⟩
      · rw [htr, runCalls_append]
        have huntouched : ∀ c ∈ (intensityLoop q op true cf rest
            (fun a => if a = intensityAttr l then v0 else attrs a)).2.1,
            ¬ touches c l "intensity" := by
          intro c hc ht
          obtain ⟨hlq, -⟩ := intensityLoop_touches q op true cf rest _ c hc
            l "intensity" ht
          exact hmemrest hlq
        rw [keysAt, runCalls_untouched l "intensity" _ _ huntouched]
        have hks : runCalls ks [Call.getAttr (intensityAttr l),
            Call.cutKey l cf cf "intensity",
            Call.setKeyframe l cf "intensity" v0,
            Call.setAttr (intensityAttr l) v0] l "intensity"
            = (ks l "intensity").filter
                (fun p => decide (¬ (cf ≤ p.1 ∧ p.1 ≤ cf))) ++ [(cf, v0)] := by
          simp [runCalls, applyCall]
        rw [hks, List.filter_append, cut_then_keysAt]
        simp

/-- Every key-editing call of the color loop acts on a light of the list
and on a `pfx ++ channel` attribute. -/
theorem colorLoop_touches (kf : Bool) (cf : ℚ) (cv : List ℚ) (an pfx : String)
    (lights : List String) (c : Call)
    (hc : c ∈ lights.flatMap (colorIter kf cf cv an pfx)) (lq aq : String)
    (ht : touches c lq aq) :
    lq ∈ lights ∧ ∃ ch ∈ rgb_array, aq = pfx ++ ch := by
  obtain ⟨l, hl, hcall⟩ := List.mem_flatMap.mp hc
  rcases colorIter_mem kf cf cv an pfx l c hcall with h | ⟨ch, hch, h⟩ | ⟨ch, hch, i, h⟩
  · subst h; exact absurd ht (by simp [touches])
  · subst h
    obtain ⟨h1, h2⟩ := ht
    exact ⟨by rw [h1]; exact hl, ch, hch, h2⟩
  · subst h
    obtain ⟨h1, h2⟩ := ht
    exact ⟨by rw [h1]; exact hl, ch, hch, h2⟩

/-- The explicit six-key-calls-plus-write shape of one keyframing color
iteration. -/
theorem colorIter_true_eq (cf : ℚ) (cv : List ℚ) (an pfx l : String) :
    colorIter true cf cv an pfx l
      = [Call.cutKey l cf cf (pfx ++ "R"),
         Call.setKeyframe l cf (pfx ++ "R") (cv.getD 0 0),
         Call.cutKey l cf cf (pfx ++ "G"),
         Call.setKeyframe l cf (pfx ++ "G") (cv.getD 1 0),
         Call.cutKey l cf cf (pfx ++ "B"),
         Call.setKeyframe l cf (pfx ++ "B") (cv.getD 2 0),
         Call.setAttrRgb (l ++ "." ++ an) cv] := by
  simp [colorIter, set_rgb_keyframes, rgb_array, set_rgb_keyframes_loop]

/-- Distinct channel letters give distinct prefixed attribute names. -/
theorem pfx_channel_ne (pfx : String) {c1 c2 : String} (h12 : c1 ≠ c2) :
    pfx ++ c1 ≠ pfx ++ c2 :=
  fun h => h12 (String.append_cancel_left h)

/-- The cut-then-set pair of channel `i` sits contiguously inside the
keyframing color iteration. -/
theorem colorIter_seg (cf : ℚ) (cv : List ℚ) (an pfx l : String) (i : ℕ)
    (ch : String) (hch : rgb_array.get? i = some ch) :
    [Call.cutKey l cf cf (pfx ++ ch),
     Call.setKeyframe l cf (pfx ++ ch) (cv.getD i 0)]
      <:+: colorIter true cf cv an pfx l := by
  rw [colorIter_true_eq]
  match i, hch with
  | 0, hch =>
    have hc : ch = "R" := by simpa [rgb_array] using hch.symm
    subst hc
    exact ⟨[], _, rfl⟩
  | 1, hch =>
    have hc : ch = "G" := by simpa [rgb_array] using hch.symm
    subst hc
    exact ⟨[Call.cutKey l cf cf (pfx ++ "R"),
      Call.setKeyframe l cf (pfx ++ "R") (cv.getD 0 0)], _, rfl⟩
  | 2, hch =>
    have hc : ch = "B" := by simpa [rgb_array] using hch.symm
    subst hc
    exact ⟨[Call.cutKey l cf cf (pfx ++ "R"),
      Call.setKeyframe l cf (pfx ++ "R") (cv.getD 0 0),
      Call.cutKey l cf cf (pfx ++ "G"),
      Call.setKeyframe l cf (pfx ++ "G") (cv.getD 1 0)], _, rfl⟩
  | (n + 3), hch => simp [rgb_array] at hch

/-- Interpreting one keyframing color iteration from any store leaves
exactly the freshly set key at the current frame on each of the three
channels of that light. -/
theorem runCalls_colorIter_self (cf : ℚ) (cv : List ℚ) (an pfx l : String)
    (ks : KeyStore) (i : ℕ) (ch : String) (hch : rgb_array.get? i = some ch) :
    keysAt (runCalls ks (colorIter true cf cv an pfx l)) l (pfx ++ ch) cf
      = [(cf, cv.getD i 0)] := by
  have hRG := pfx_channel_ne pfx (show "R" ≠ "G" by decide)
  have hRB := pfx_channel_ne pfx (show "R" ≠ "B" by decide)
  have hGR := pfx_channel_ne pfx (show "G" ≠ "R" by decide)
  have hGB := pfx_channel_ne pfx (show "G" ≠ "B" by decide)
  have hBR := pfx_channel_ne pfx (show "B" ≠ "R" by decide)
  have hBG := pfx_channel_ne pfx (show "B" ≠ "G" by decide)
  rw [colorIter_true_eq]
  match i, hch with
  | 0, hch =>
    have hc : ch = "R" := by simpa [rgb_array] using hch.symm
    subst hc
    have hks : runCalls ks [Call.cutKey l cf cf (pfx ++ "R"),
        Call.setKeyframe l cf (pfx ++ "R") (cv.getD 0 0),
        Call.cutKey l cf cf (pfx ++ "G"),
        Call.setKeyframe l cf (pfx ++ "G") (cv.getD 1 0),
        Call.cutKey l cf cf (pfx ++ "B"),
        Call.setKeyframe l cf (pfx ++ "B") (cv.getD 2 0),
        Call.setAttrRgb (l ++ "." ++ an) cv] l (pfx ++ "R")
        = (ks l (pfx ++ "R")).filter
            (fun p => decide (¬ (cf ≤ p.1 ∧ p.1 ≤ cf))) ++ [(cf, cv.getD 0 0)] := by
      simp [runCalls, applyCall, hRG, hRB]
    rw [keysAt, hks, List.filter_append, cut_then_keysAt]
    simp
  | 1, hch =>
    have hc : ch = "G" := by simpa [rgb_array] using hch.symm
    subst hc
    have hks : runCalls ks [Call.cutKey l cf cf (pfx ++ "R"),
        Call.setKeyframe l cf (pfx ++ "R") (cv.getD 0 0),
        Call.cutKey l cf cf (pfx ++ "G"),
        Call.setKeyframe l cf (pfx ++ "G") (cv.getD 1 0),
        Call.cutKey l cf cf (pfx ++ "B"),
        Call.setKeyframe l cf (pfx ++ "B") (cv.getD 2 0),
        Call.setAttrRgb (l ++ "." ++ an) cv] l (pfx ++ "G")
        = (ks l (pfx ++ "G")).filter
            (fun p => decide (¬ (cf ≤ p.1 ∧ p.1 ≤ cf))) ++ [(cf, cv.getD 1 0)] := by
      simp [runCalls, applyCall, hGR, hGB]
    rw [keysAt, hks, List.filter_append, cut_then_keysAt]
    simp
  | 2, hch =>
    have hc : ch = "B" := by simpa [rgb_array] using hch.symm
    subst hc
    have hks : runCalls ks [Call.cutKey l cf cf (pfx ++ "R"),
        Call.setKeyframe l cf (pfx ++ "R") (cv.getD 0 0),
        Call.cutKey l cf cf (pfx ++ "G"),
        Call.setKeyframe l cf (pfx ++ "G") (cv.getD 1 0),
        Call.cutKey l cf cf (pfx ++ "B"),
        Call.setKeyframe l cf (pfx ++ "B") (cv.getD 2 0),
        Call.setAttrRgb (l ++ "." ++ an) cv] l (pfx ++ "B")
        = (ks l (pfx ++ "B")).filter
            (fun p => decide (¬ (cf ≤ p.1 ∧ p.1 ≤ cf))) ++ [(cf, cv.getD 2 0)] := by
      simp [runCalls, applyCall, hBR, hBG]
    rw [keysAt, hks, List.filter_append, cut_then_keysAt]
    simp
  | (n + 3), hch => simp [rgb_array] at hch

/-- The color loop with `keyframe = True`: per light and per channel, a
contiguous cut-then-set pair is in the trace and the channel ends with
exactly the one fresh key at the current frame. -/
theorem colorLoop_keys (cf : ℚ) (cv : List ℚ) (an pfx : String) :
    ∀ (lights : List String) (l : String), l ∈ lights → ∀ (ks : KeyStore)
    (i : ℕ) (ch : String), rgb_array.get? i = some ch →
    [Call.cutKey l cf cf (pfx ++ ch),
     Call.setKeyframe l cf (pfx ++ ch) (cv.getD i 0)]
      <:+: lights.flatMap (colorIter true cf cv an pfx) ∧
    keysAt (runCalls ks (lights.flatMap (colorIter true cf cv an pfx)))
      l (pfx ++ ch) cf = [(cf, cv.getD i 0)] := by
  intro lights
  induction lights with
  | nil => intro l hl; exact absurd hl (List.not_mem_nil l)
  | cons l0 rest ih =>
    intro l hl ks i ch hch
    have hsplit : (l0 :: rest).flatMap (colorIter true cf cv an pfx)
        = colorIter true cf cv an pfx l0 ++
          rest.flatMap (colorIter true cf cv an pfx) := by
      simp
    by_cases hmemrest : l ∈ rest
    · obtain ⟨hinf, hkeys⟩ := ih l hmemrest
        (runCalls ks (colorIter true cf cv an pfx l0)) i ch hch
      refine ⟨?_, ?_⟩
      · rw [hsplit]
        exact infix_append_right_lift hinf _
      · rw [hsplit, runCalls_append]
        exact hkeys
    · have hll0 : l = l0 := by
        rcases List.mem_cons.mp hl with h | h
        · exact h
        · exact absurd h hmemrest
      subst hll0
      refine ⟨?_, ?_⟩
      · rw [hsplit]
        exact infix_append_left_lift (colorIter_seg cf cv an pfx l i ch hch) _
      · rw [hsplit, runCalls_append]
        have huntouched : ∀ c ∈ rest.flatMap (colorIter true cf cv an pfx),
            ¬ touches c l (pfx ++ ch) := by
          intro c hc ht
          obtain ⟨hlq, -⟩ := colorLoop_touches true cf cv an pfx rest c hc
            l (pfx ++ ch) ht
          exact hmemrest hlq
        rw [keysAt, runCalls_untouched l (pfx ++ ch) _ _ huntouched, ← keysAt]
        exact runCalls_colorIter_self cf cv an pfx l ks i ch hch

-- ===== C4 =====

/-- C4: with `keyframe = true`, both operations first cut any key at the
current frame on each target channel and immediately then set the new key
there (the cut-then-set pair is contiguous in the trace), so that starting
from any key store — in particular one already holding a key at that frame
— the channel ends with exactly one key at the current frame, carrying the
freshly set value.  The host key semantics (cut removes keys in the time
range, set records one) is modelled from the spec. -/
theorem claim4_keyframe_replace_not_stack :
    (∀ (q : ℚ) (op : ℤ), op ∈ ([0, 1, 2, 3] : List ℤ) →
      ∀ (lights : List String) (l : String), l ∈ lights →
      ∀ (host : Host) (ks : KeyStore),
      ∃ v, [Call.cutKey l host.currentTime host.currentTime "intensity",
            Call.setKeyframe l host.currentTime "intensity" v]
          <:+: (change_intensity q op lights true host).2.1 ∧
        keysAt (runCalls ks (change_intensity q op lights true host).2.1)
          l "intensity" host.currentTime = [(host.currentTime, v)]) ∧
    (∀ (cv : List ℚ) (lights : List String) (l : String), l ∈ lights →
      ∀ (cos : ℤ) (an pfx : String), attrTable cos = some (an, pfx) →
      ∀ (host : Host) (ks : KeyStore) (i : ℕ) (ch : String),
      rgb_array.get? i = some ch →
      [Call.cutKey l host.currentTime host.currentTime (pfx ++ ch),
       Call.setKeyframe l host.currentTime (pfx ++ ch) (cv.getD i 0)]
          <:+: (change_color cv lights true cos host).1 ∧
        keysAt (runCalls ks (change_color cv lights true cos host).1)
          l (pfx ++ ch) host.currentTime = [(host.currentTime, cv.getD i 0)]) := by
  constructor
  · intro q op hop lights l hl host ks
    have hne : ¬ lights.isEmpty := by
      cases lights with
      | nil => exact absurd hl (List.not_mem_nil l)
      | cons a t => simp
    obtain ⟨v, hinf, hkeys⟩ :=
      intensityLoop_keys q op hop host.currentTime lights host.attrs l hl ks
    refine ⟨v, ?_, ?_⟩
    · simp only [change_intensity, if_neg hne]
      exact infix_append_right_lift hinf [Call.queryCurrentTime]
    · simp only [change_intensity, if_neg hne]
      have hstep : runCalls ks (Call.queryCurrentTime ::
          (intensityLoop q op true host.currentTime lights host.attrs).2.1)
          = runCalls ks
            (intensityLoop q op true host.currentTime lights host.attrs).2.1 := rfl
      rw [hstep]
      exact hkeys
  · intro cv lights l hl cos an pfx hattr host ks i ch hch
    have hne : lights ≠ [] := by
      intro h; subst h; exact absurd hl (List.not_mem_nil l)
    rw [change_color_trace cv lights true cos an pfx host hattr hne]
    obtain ⟨hinf, hkeys⟩ := colorLoop_keys host.currentTime cv an pfx lights
      l hl ks i ch hch
    refine ⟨infix_append_right_lift hinf [Call.queryCurrentTime], ?_⟩
    have hstep : runCalls ks (Call.queryCurrentTime ::
        lights.flatMap (colorIter true host.currentTime cv an pfx))
        = runCalls ks
          (lights.flatMap (colorIter true host.currentTime cv an pfx)) := rfl
    rw [hstep]
    exact hkeys

/-- Sample pre-existing key store: a key already sits at frame 0 on every
channel. -/
def sampleKeys : KeyStore := fun _ _ => [(0, 99)]

/-- Witness for C4: intensity on one light and the green channel of a
two-light color change, both starting from a store with an existing key at
the current frame. -/
theorem claim4_witness :
    (((1 : ℤ) ∈ ([0, 1, 2, 3] : List ℤ)) ∧
      "lightA" ∈ (["lightA"] : List String) ∧
      ∃ v, [Call.cutKey "lightA" sampleHost.currentTime sampleHost.currentTime
              "intensity",
            Call.setKeyframe "lightA" sampleHost.currentTime "intensity" v]
          <:+: (change_intensity 10 1 ["lightA"] true sampleHost).2.1 ∧
        keysAt (runCalls sampleKeys
            (change_intensity 10 1 ["lightA"] true sampleHost).2.1)
          "lightA" "intensity" sampleHost.currentTime
          = [(sampleHost.currentTime, v)]) ∧
    ("lightB" ∈ (["lightA", "lightB"] : List String) ∧
      attrTable 1 = some ("color", "color") ∧
      rgb_array.get? 1 = some "G" ∧
      ([Call.cutKey "lightB" sampleHost.currentTime sampleHost.currentTime
          ("color" ++ "G"),
        Call.setKeyframe "lightB" sampleHost.currentTime ("color" ++ "G")
          (([1, 0, 0] : List ℚ).getD 1 0)]
          <:+: (change_color [1, 0, 0] ["lightA", "lightB"] true 1 sampleHost).1 ∧
        keysAt (runCalls sampleKeys
            (change_color [1, 0, 0] ["lightA", "lightB"] true 1 sampleHost).1)
          "lightB" ("color" ++ "G") sampleHost.currentTime
          = [(sampleHost.currentTime, ([1, 0, 0] : List ℚ).getD 1 0)])) :=
  ⟨⟨by decide, by decide,
    claim4_keyframe_replace_not_stack.1 10 1 (by decide) ["lightA"] "lightA"
      (by decide) sampleHost sampleKeys⟩,
   ⟨by decide, rfl, rfl,
    claim4_keyframe_replace_not_stack.2 [1, 0, 0] ["lightA", "lightB"] "lightB"
      (by decide) 1 "color" "color" rfl sampleHost sampleKeys 1 "G" rfl⟩⟩

-- ===== C5: swatch read-back and the controller conversion =====

/-- A Python value as handled by the color read-back path: a number, a
boolean, or a list. -/
inductive PyVal where
  | num (q : ℚ)
  | pybool (b : Bool)
  | list (xs : List PyVal)

/-- `QColor` clamps each channel to `[0, 255]`. -/
def qcolor_component_clamp (x : ℤ) : ℤ := max 0 (min x 255)

/-- `giveme_light_color` (`MayaSceneLights_pysideWindow.py` lines 469-485):
builds a `QColor` from the R/G/B text boxes and returns the Python list
`[[r, g, b], rgb_value == hsv_value]` — a 2-element pair of the RGB list
and a comparison boolean, not a flat 3-integer array.  The comparison
result depends on the H/S/V boxes and enters as `rgb_eq_hsv`. -/
def giveme_light_color (r g b : ℤ) (rgb_eq_hsv : Bool) : PyVal :=
  PyVal.list [PyVal.list [PyVal.num (qcolor_component_clamp r : ℤ),
                          PyVal.num (qcolor_component_clamp g : ℤ),
                          PyVal.num (qcolor_component_clamp b : ℤ)],
              PyVal.pybool rgb_eq_hsv]

/-- `giveme_shadow_color` (lines 487-503): identical shape, reading the
shadow boxes. -/
def giveme_shadow_color (r g b : ℤ) (rgb_eq_hsv : Bool) : PyVal :=
  PyVal.list [PyVal.list [PyVal.num (qcolor_component_clamp r : ℤ),
                          PyVal.num (qcolor_component_clamp g : ℤ),
                          PyVal.num (qcolor_component_clamp b : ℤ)],
              PyVal.pybool rgb_eq_hsv]

/-- Python `value / d` for `d` a float: numbers and booleans divide,
dividing a list raises `TypeError` (modelled as `none`). -/
def py_div (v : PyVal) (d : ℚ) : Option PyVal :=
  match v with
  | PyVal.num q => some (PyVal.num (q / d))
  | PyVal.pybool b => some (PyVal.num ((if b then 1 else 0) / d))
  | PyVal.list _ => none

/-- The list comprehension `[value/255.00 for value in rgb_array]` of
`apply_color_change` / `apply_shadow_change`
(`MayaSceneLights_mayaWindow.py` lines 111 and 148): left to right, the
first `TypeError` aborts. -/
def comprehension_div255 : List PyVal → Option (List PyVal)
  | [] => some []
  | v :: rest =>
    match py_div v 255 with
    | none => none
    | some w =>
      match comprehension_div255 rest with
      | none => none
      | some ws => some (w :: ws)

/-- The argument build of `apply_color_change`: iterate the swatch
read-back result and divide each element by 255.0. -/
def apply_color_change_arg (swatch : PyVal) : Option (List PyVal) :=
  match swatch with
  | PyVal.list xs => comprehension_div255 xs
  | _ => none

/-- C5 (code bug): for every swatch state, the value `giveme_light_color`
(or `giveme_shadow_color`) hands back is the pair `[[r,g,b], bool]`, so the
controller's per-element division by 255.0 hits the inner RGB *list* first
and raises `TypeError`: no `[0,1]` float triple is ever produced, and
`change_color` is never reached. -/
theorem claim5_swatch_conversion_type_error (r g b : ℤ) (rgb_eq_hsv : Bool) :
    apply_color_change_arg (giveme_light_color r g b rgb_eq_hsv) = none ∧
    apply_color_change_arg (giveme_shadow_color r g b rgb_eq_hsv) = none := by
  constructor <;> rfl

-- ===== C8: window list state =====

/-- The slice of the Presentation Window state the list operations use:
the tracked row names in display order, each row's selection highlight,
and the most-recently-selected light
(`MayaSceneLights_pysideWindow.py` lines 23, 32). -/
structure WindowState where
  lightsArray : List String
  rowSelected : String → Bool
  latest_light_selected : Option String

/-- One iteration of the `for item, light_type in lights_array:` loop of
`populate_itemlist` (lines 520-537): append the row; when the name is in
`selected_array`, select it and record it as most recently selected. -/
def populateStep (selected_array : List String) (st : WindowState)
    (it : String × String) : WindowState :=
  let st1 : WindowState := { st with lightsArray := st.lightsArray ++ [it.1] }
  if it.1 ∈ selected_array then
    { st1 with
      rowSelected := fun r => if r = it.1 then true else st1.rowSelected r,
      latest_light_selected := some it.1 }
  else st1

/-- `populate_itemlist(lights_array, selected_array)` (lines 505-537): the
widget list is cleared and rebuilt; note the method never resets
`latest_light_selected` before the loop. -/
def populate_itemlist (w : WindowState) (lights_array : List (String × String))
    (selected_array : List String) : WindowState :=
  let w0 : WindowState :=
    { w with lightsArray := [], rowSelected := fun _ => false }
  lights_array.foldl (populateStep selected_array) w0

/-- One iteration of the `for item in self.lightsArray:` loop of
`update_list_selection` (lines 647-654). -/
def ulsStep (selected_array : List String) (st : WindowState)
    (item : String) : WindowState :=
  if item ∈ selected_array then
    { st with
      rowSelected := fun r => if r = item then true else st.rowSelected r,
      latest_light_selected := some item }
  else
    { st with
      rowSelected := fun r => if r = item then false else st.rowSelected r }

/-- `update_list_selection(selected_array)` (lines 639-654): resets
`latest_light_selected` to `None` first, then re-applies highlighting. -/
def update_list_selection (w : WindowState) (selected_array : List String) :
    WindowState :=
  let w0 : WindowState := { w with latest_light_selected := none }
  w.lightsArray.foldl (ulsStep selected_array) w0

/-- The last row name (in list order) that appears in `sel`. -/
def lastMatch (rows sel : List String) : Option String :=
  rows.foldl (fun acc r => if r ∈ sel then some r else acc) none

theorem ulsStep_latest (sel : List String) :
    ∀ (rows : List String) (st : WindowState),
    ((rows.foldl (ulsStep sel) st).latest_light_selected)
      = rows.foldl (fun acc r => if r ∈ sel then some r else acc)
          st.latest_light_selected := by
  intro rows
  induction rows with
  | nil => intro st; rfl
  | cons r rows ih =>
    intro st
    by_cases h : r ∈ sel <;> simp [ulsStep, h, ih]

theorem populateStep_latest (sel : List String) :
    ∀ (la : List (String × String)) (st : WindowState),
    ((la.foldl (populateStep sel) st).latest_light_selected)
      = (la.map Prod.fst).foldl (fun acc r => if r ∈ sel then some r else acc)
          st.latest_light_selected := by
  intro la
  induction la with
  | nil => intro st; rfl
  | cons p la ih =>
    intro st
    by_cases h : p.1 ∈ sel <;> simp [populateStep, h, ih]

theorem lastMatch_foldl_init (sel : List String) :
    ∀ (rows : List String) (i : Option String),
    rows.foldl (fun acc r => if r ∈ sel then some r else acc) i
      = (match lastMatch rows sel with
         | some x => some x
         | none => i) := by
  intro rows
  induction rows with
  | nil => intro i; rfl
  | cons r rows ih =>
    intro i
    by_cases h : r ∈ sel
    · show rows.foldl _ (if r ∈ sel then some r else i) = _
      rw [if_pos h, ih (some r)]
      have hnone : lastMatch (r :: rows) sel
          = rows.foldl (fun acc x => if x ∈ sel then some x else acc) (some r) := by
        simp [lastMatch, h]
      rw [hnone, ih (some r)]
      cases lastMatch rows sel <;> rfl
    · show rows.foldl _ (if r ∈ sel then some r else i) = _
      rw [if_neg h, ih i]
      have hnone : lastMatch (r :: rows) sel
          = rows.foldl (fun acc x => if x ∈ sel then some x else acc) none := by
        simp [lastMatch, h]
      rw [hnone, ih none]
      cases lastMatch rows sel <;> rfl

/-- Window with one stale row and a stale most-recently-selected light. -/
def cexWindow : WindowState := ⟨["oldLight"], fun _ => false, some "oldLight"⟩

/-- C8 counterexample: rebuilding the list from a fresh query with an
empty selection does NOT clear the most-recently-selected light — the
stale value survives `populate_itemlist`, where the claim requires
`none`. -/
theorem claim8_counterexample :
    (populate_itemlist cexWindow [("lightA", "pointLight")] []).latest_light_selected
      = some "oldLight" ∧
    (some "oldLight" : Option String) ≠ none := by
  constructor
  · rfl
  · decide

/-- C8 (amended): after `update_list_selection(selected)` the
most-recently-selected light equals the last row (in list order) whose
name appears in `selected`, or `none` when no row matches; after
`populate_itemlist(lights, selected)` it equals the last matching row when
one exists, but when no row matches it RETAINS its previous value instead
of being cleared. -/
theorem claim8_latest_selected (w : WindowState) (sel : List String)
    (la : List (String × String)) :
    (update_list_selection w sel).latest_light_selected
      = lastMatch w.lightsArray sel ∧
    (populate_itemlist w la sel).latest_light_selected
      = (match lastMatch (la.map Prod.fst) sel with
         | some x => some x
         | none => w.latest_light_selected) := by
  constructor
  · show ((w.lightsArray.foldl (ulsStep sel) _).latest_light_selected) = _
    rw [ulsStep_latest]
    rfl
  · show ((la.foldl (populateStep sel) _).latest_light_selected) = _
    rw [populateStep_latest, lastMatch_foldl_init]

-- ===== C9: search filter =====

/-- Python `s.find(sub)` (used at `MayaSceneLights_pysideWindow.py` lines
622 and 633): index of the first occurrence of `sub` in `s`, `-1` when
absent; the scan is a plain case-sensitive substring search. -/
def py_str_find (s sub : String) : ℤ :=
  match (List.range (s.data.length + 1)).find?
      (fun i => decide ((s.data.drop i).take sub.data.length = sub.data)) with
  | some i => (i : ℤ)
  | none => -1

theorem py_str_find_nonneg_iff (s sub : String) :
    0 ≤ py_str_find s sub ↔ sub.data <:+: s.data := by
  cases hf : (List.range (s.data.length + 1)).find?
      (fun i => decide ((s.data.drop i).take sub.data.length = sub.data)) with
  | some i =>
    simp only [py_str_find, hf]
    constructor
    · intro _
      have hp := List.find?_some hf
      rw [decide_eq_true_eq] at hp
      have h2 : sub.data ++ (s.data.drop i).drop sub.data.length
          = s.data.drop i := by
        have h3 := List.take_append_drop sub.data.length (s.data.drop i)
        rw [hp] at h3
        exact h3
      refine ⟨s.data.take i, (s.data.drop i).drop sub.data.length, ?_⟩
      rw [List.append_assoc, h2, List.take_append_drop]
    · intro _
      exact Int.natCast_nonneg i
  | none =>
    simp only [py_str_find, hf]
    constructor
    · intro h
      exact absurd h (by decide)
    · intro hinf
      exfalso
      obtain ⟨u, w, he⟩ := hinf
      have hmem : u.length ∈ List.range (s.data.length + 1) := by
        rw [List.mem_range]
        have hle : u.length ≤ s.data.length := by
          rw [← he, List.length_append, List.length_append]
          omega
        omega
      have hpred := List.find?_eq_none.mp hf u.length hmem
      rw [decide_eq_true_eq] at hpred
      apply hpred
      rw [← he, List.append_assoc, List.drop_left, List.take_left]

/-- `search_light(letters)` (lines 611-637) over the displayed rows, each a
`(name, hidden)` pair; the row texts are left in place and only the hidden
flags change. -/
def search_light (render_layer_only : Bool) (render_layer_array : List String)
    (letters : String) (items : List (String × Bool)) : List (String × Bool) :=
  if render_layer_only then
    items.map (fun it =>
      (it.1, if 0 ≤ py_str_find it.1 letters ∧ it.1 ∈ render_layer_array
             then false else true))
  else
    items.map (fun it =>
      (it.1, if py_str_find it.1 letters < 0 then true else false))

/-- C9: after `search_light`, a row is visible (not hidden) iff its name
contains the search text as a case-sensitive substring and, when
render-layer-only mode is active, its name is also in the cached
render-layer membership; with membership `{lightA, lightB}` and text
`"light"`, `lightA` stays visible while `lightC` and `spotB` are hidden. -/
theorem claim9_search_filter :
    (∀ (rlo : Bool) (rla : List String) (letters : String)
      (items : List (String × Bool)) (it : String × Bool),
      it ∈ search_light rlo rla letters items →
      (it.2 = false ↔
        (letters.data <:+: it.1.data ∧ (rlo = true → it.1 ∈ rla)))) ∧
    search_light true ["lightA", "lightB"] "light"
        [("lightA", false), ("lightC", false), ("spotB", false)]
      = [("lightA", false), ("lightC", true), ("spotB", true)] := by
  constructor
  · intro rlo rla letters items it hit
    cases rlo with
    | false =>
      simp only [search_light, Bool.false_eq_true, if_false] at hit
      obtain ⟨src, hsrc, heq⟩ := List.mem_map.mp hit
      rw [← heq]
      rw [← py_str_find_nonneg_iff]
      by_cases h : py_str_find src.1 letters < 0 <;> simp [h] <;> omega
    | true =>
      simp only [search_light, if_pos rfl] at hit
      obtain ⟨src, hsrc, heq⟩ := List.mem_map.mp hit
      rw [← heq]
      rw [← py_str_find_nonneg_iff]
      by_cases h : 0 ≤ py_str_find src.1 letters ∧ src.1 ∈ rla <;> simp [h]
  · decide

/-- Witness for C9: the `lightA` row of the composed-filter example. -/
theorem claim9_witness :
    (("lightA", false) ∈ search_light true ["lightA", "lightB"] "light"
        [("lightA", false), ("lightC", false), ("spotB", false)]) ∧
    ((("lightA", false) : String × Bool).2 = false ↔
      (("light" : String).data <:+: (("lightA", false) : String × Bool).1.data ∧
        (true = true →
          (("lightA", false) : String × Bool).1 ∈ ["lightA", "lightB"]))) :=
  ⟨by decide,
    claim9_search_filter.1 true ["lightA", "lightB"] "light"
      [("lightA", false), ("lightC", false), ("spotB", false)]
      ("lightA", false) (by decide)⟩
